import Mathlib

/-!
Verification of the task dependency graph engine of a quest-browsing web tool.

The embedding models JavaScript strings as lists of UTF-16 code points
(Lean type: list of naturals), JavaScript numbers that carry coordinates,
zoom factors or durations as rationals, and match scores (sums of the
constants 100, 50, 10) as naturals.  Fallible lookups return an option;
effectful calls on the rendering surface (setCenter, pan-and-highlight) are
modelled by returning the list of calls issued.  Each definition mirrors
one function of the source; the doc comment names it.
-/

/-- A JavaScript string, modelled as its list of UTF-16 code points. -/
abbrev Str := List Nat

/-- Code points of a literal, for concrete inputs. -/
def strOf (s : String) : Str := s.data.map Char.toNat

/-- One code point of String.prototype.toLowerCase: ASCII letters A-Z map to
a-z, every other code point is unchanged. -/
def toLowerCP (c : Nat) : Nat := if 65 ≤ c ∧ c ≤ 90 then c + 32 else c

/-- String.prototype.toLowerCase, applied pointwise. -/
def toLowerStr (s : Str) : Str := s.map toLowerCP

/-- Whitespace test for a code point (space, tab, line feed, carriage return). -/
def isWsCP (c : Nat) : Bool := decide (c = 32 ∨ c = 9 ∨ c = 10 ∨ c = 13)

/-- String.prototype.trim: drop leading and trailing whitespace. -/
def trimStr (s : Str) : Str :=
  ((s.dropWhile isWsCP).reverse.dropWhile isWsCP).reverse

/-- String.prototype.includes: does pat occur as a contiguous substring of s. -/
def strIncludes (s pat : Str) : Bool :=
  match s with
  | [] => pat.isEmpty
  | c :: rest => pat.isPrefixOf (c :: rest) || strIncludes rest pat

/-- String.prototype.startsWith. -/
def strStartsWith (s pat : Str) : Bool := pat.isPrefixOf s

/-- normalizeString of src/src/utils (search part): lowercase then trim. -/
def normalizeString (s : Str) : Str := trimStr (toLowerStr s)

/-! ### Data model (src/src/types/Task.ts) -/

/-- The trader record of a task. -/
structure Trader where
  id : Str
  name : Str
  imageUrl : Option Str := none
deriving DecidableEq

/-- An item referenced by an objective. -/
structure ItemRef where
  id : Str
  name : Str
deriving DecidableEq

/-- A task objective. -/
structure TaskObjective where
  id : Str
  description : Str
  type : Str
  count : Option ℚ := none
  optional : Option Bool := none
  item : Option ItemRef := none
deriving DecidableEq

/-- The type tag of a task reward. -/
inductive RewardType where
  | experience | money | item | skill | reputation | unlock
deriving DecidableEq

/-- The value of a reward: a number or a string. -/
inductive RewardValue where
  | num (n : ℚ)
  | str (s : Str)
deriving DecidableEq

/-- A task reward. -/
structure TaskReward where
  type : RewardType
  value : RewardValue
  description : Option Str := none
deriving DecidableEq

/-- The type tag of an unlock requirement. -/
inductive ReqType where
  | task | level | reputation | skill
deriving DecidableEq

/-- An unlock requirement; the optional fields are populated by type. -/
structure UnlockRequirement where
  type : ReqType
  taskId : Option Str := none
  taskName : Option Str := none
  level : Option Nat := none
  value : Option ℚ := none
  description : Option Str := none
deriving DecidableEq

/-- A follow-up task entry. -/
structure FollowUpTask where
  taskId : Str
  taskName : Str
  traderName : Option Str := none
deriving DecidableEq

/-- A task record (interface TaskData). -/
structure TaskData where
  taskId : Str
  taskGroup : Option Str := none
  trader : Trader
  taskName : Str
  objectives : List TaskObjective := []
  rewards : List TaskReward := []
  unlockRequirements : List UnlockRequirement := []
  followUpTasks : List FollowUpTask := []
  minPlayerLevel : Option Nat := none
  wikiLink : Option Str := none
deriving DecidableEq

/-! ### React Flow node and edge records (the fields the code consults) -/

/-- A 2-D position. -/
structure Position where
  x : ℚ
  y : ℚ
deriving DecidableEq

/-- A rendered graph node: its id and its position. -/
structure FlowNode where
  id : Str
  position : Position := ⟨0, 0⟩
deriving DecidableEq

/-- A graph edge as generated by generateEdges. -/
structure FlowEdge where
  id : Str
  source : Str
  target : Str
  animated : Bool := false
deriving DecidableEq

/-! ### Graph builder (generateEdges, src/unnamed/part_005) -/

/-- The edge record generateEdges pushes for one prerequisite pair. -/
def mkTaskEdge (prereqId taskId : Str) : FlowEdge :=
  { id := strOf "edge-" ++ prereqId ++ strOf "-" ++ taskId,
    source := prereqId,
    target := taskId,
    animated := true }

/-- generateEdges: one edge is pushed per unlock requirement of type task
whose taskId is truthy (present and non-empty) and is the id of some task of
the input collection.  The JS for-each loops with push are flattened maps. -/
def generateEdges (tasks : List TaskData) : List FlowEdge :=
  let taskSet := tasks.map (fun t => t.taskId)
  tasks.flatMap (fun task =>
    let prereqTasks :=
      (task.unlockRequirements.filter (fun req =>
        req.type == ReqType.task &&
          (match req.taskId with
           | some tid => !tid.isEmpty && taskSet.contains tid
           | none => false))).map (fun req => req.taskId.getD [])
    prereqTasks.map (fun prereqId => mkTaskEdge prereqId task.taskId))

/-! ### Layout helpers (src/src/utils/layoutUtils.ts) -/

/-- findStartNodeId: undefined on an empty node list; otherwise the first
node that is the target of no edge, falling back to the first node. -/
def findStartNodeId (nodes : List FlowNode) (edges : List FlowEdge) : Option Str :=
  match nodes with
  | [] => none
  | firstNode :: _ =>
    let targetNodeIds := edges.map (fun e => e.target)
    let startNodes := nodes.filter (fun n => !(targetNodeIds.contains n.id))
    match startNodes with
    | s :: _ => some s.id
    | [] => some firstNode.id

/-! ### Search utilities (search part of src/src/utils) -/

/-- isRewardMatched: the description (when truthy) or the string-typed value
contains the normalized query. -/
def isRewardMatched (reward : TaskReward) (normalizedQuery : Str) : Bool :=
  (match reward.description with
   | some d => !d.isEmpty && strIncludes (normalizeString d) normalizedQuery
   | none => false) ||
  (match reward.value with
   | RewardValue.str s => strIncludes (normalizeString s) normalizedQuery
   | RewardValue.num _ => false)

/-- calculateMatchScore: 100 for an exact match of the normalized description
or string value, else 50 for a starts-with match, else 10.  The source
accumulates into a score variable initialized to 0; the net result is the
same conditional. -/
def calculateMatchScore (reward : TaskReward) (normalizedQuery : Str) : Nat :=
  let description := match reward.description with
    | some d => normalizeString d
    | none => []
  let value := match reward.value with
    | RewardValue.str s => normalizeString s
    | RewardValue.num _ => []
  if description == normalizedQuery || value == normalizedQuery then 100
  else if strStartsWith description normalizedQuery || strStartsWith value normalizedQuery then 50
  else 10

/-- One reward-search match (interface SearchMatchResult). -/
structure SearchMatchResult where
  taskId : Str
  matchedRewards : List TaskReward
  score : Nat
deriving DecidableEq

/-- The reward-search result (interface SearchResult); matchList models the
source field named matches, a word Lean reserves. -/
structure SearchResult where
  matchedIds : List Str
  matchList : List SearchMatchResult
deriving DecidableEq

/-- Insert a match into a list kept in non-increasing score order, after any
entry of equal score. -/
def insertByScoreDesc (m : SearchMatchResult) :
    List SearchMatchResult → List SearchMatchResult
  | [] => [m]
  | x :: xs => if m.score ≤ x.score then x :: insertByScoreDesc m xs
               else m :: x :: xs

/-- Array.prototype.sort with comparator (a, b) => b.score - a.score: a
stable sort by descending score, modelled as stable insertion sort. -/
def sortByScoreDesc (l : List SearchMatchResult) : List SearchMatchResult :=
  l.foldl (fun acc m => insertByScoreDesc m acc) []

/-- findTasksByReward: empty result on an empty normalized query; otherwise
collect, per task, the matched rewards and the summed score, skip tasks with
no matched reward, and sort by descending score. -/
def findTasksByReward (tasks : List TaskData) (query : Str) : SearchResult :=
  let normalizedQuery := normalizeString query
  if normalizedQuery.isEmpty then { matchedIds := [], matchList := [] }
  else
    let collected := tasks.foldl (fun acc task =>
      let scan := task.rewards.foldl
        (fun (st : List TaskReward × Nat) reward =>
          if isRewardMatched reward normalizedQuery then
            (st.1 ++ [reward], st.2 + calculateMatchScore reward normalizedQuery)
          else st)
        ([], 0)
      if scan.1.isEmpty then acc
      else acc ++ [{ taskId := task.taskId, matchedRewards := scan.1, score := scan.2 }])
      []
    let sorted := sortByScoreDesc collected
    { matchedIds := sorted.map (fun m => m.taskId), matchList := sorted }

/-- isTaskMatchedCombined: the early returns of the source are modelled as a
conjunction of the three stage outcomes. -/
def isTaskMatchedCombined (task : TaskData) (searchTerm : Str)
    (rewardSearchTerm : Str) (merchantFilter : Option Str) : Bool :=
  let merchantPass :=
    match merchantFilter with
    | some f => !(!f.isEmpty && task.trader.name != f)
    | none => true
  let searchPass :=
    if searchTerm.isEmpty then true
    else
      let normalizedSearch := normalizeString searchTerm
      strIncludes (normalizeString task.taskName) normalizedSearch ||
        strIncludes (normalizeString task.trader.name) normalizedSearch
  let rewardPass :=
    if rewardSearchTerm.isEmpty then true
    else
      let normalizedReward := normalizeString rewardSearchTerm
      task.rewards.any (fun reward => isRewardMatched reward normalizedReward)
  merchantPass && searchPass && rewardPass

/-! ### Viewport controller (src/src/utils/viewport.ts) -/

/-- Options of panToNode; absent fields take the defaults 1.5, 300, 320, 100. -/
structure PanToNodeOptions where
  zoom : Option ℚ := none
  duration : Option ℚ := none
  nodeWidth : Option ℚ := none
  nodeHeight : Option ℚ := none
deriving DecidableEq

/-- One setCenter(x, y, {zoom, duration}) call on the rendering surface. -/
structure SetCenterCall where
  x : ℚ
  y : ℚ
  zoom : ℚ
  duration : ℚ
deriving DecidableEq

/-- The rendering surface handle: only getNode is consulted by panToNode. -/
structure ReactFlowInstance where
  getNode : Str → Option FlowNode

/-- panToNode: false (and no setCenter call) when the instance handle is null
or the node is absent; otherwise one setCenter call at position plus half the
node dimensions, and true.  The calls issued are returned alongside. -/
def panToNode (reactFlowInstance : Option ReactFlowInstance) (nodeId : Str)
    (options : PanToNodeOptions) : Bool × List SetCenterCall :=
  match reactFlowInstance with
  | none => (false, [])
  | some inst =>
    let zoom := options.zoom.getD (3 / 2 : ℚ)
    let duration := options.duration.getD 300
    let nodeWidth := options.nodeWidth.getD 320
    let nodeHeight := options.nodeHeight.getD 100
    match inst.getNode nodeId with
    | none => (false, [])
    | some node =>
      let centerX := node.position.x + nodeWidth / 2
      let centerY := node.position.y + nodeHeight / 2
      (true, [{ x := centerX, y := centerY, zoom := zoom, duration := duration }])

/-! ### Selection state (src/src/context/TaskViewContext.tsx) -/

/-- The SelectionState held by TaskViewProvider; the initial values of the
five useState hooks are the field defaults. -/
structure SelectionState where
  merchantFilter : Option Str := none
  searchTerm : Str := []
  rewardSearchTerm : Str := []
  selectedTaskId : Option Str := none
  focusTaskId : Option Str := none
deriving DecidableEq

/-- Setter of the merchant filter field. -/
def setMerchantFilter (v : Option Str) (s : SelectionState) : SelectionState :=
  { s with merchantFilter := v }

/-- Setter of the search term field. -/
def setSearchTerm (v : Str) (s : SelectionState) : SelectionState :=
  { s with searchTerm := v }

/-- Setter of the reward search term field. -/
def setRewardSearchTerm (v : Str) (s : SelectionState) : SelectionState :=
  { s with rewardSearchTerm := v }

/-- Setter of the selected task id field. -/
def setSelectedTaskId (v : Option Str) (s : SelectionState) : SelectionState :=
  { s with selectedTaskId := v }

/-- Setter of the focus task id field. -/
def setFocusTaskId (v : Option Str) (s : SelectionState) : SelectionState :=
  { s with focusTaskId := v }

/-- clearFilters: the three setter calls of the source, in order. -/
def clearFilters (s : SelectionState) : SelectionState :=
  setRewardSearchTerm [] (setSearchTerm [] (setMerchantFilter none s))

/-! ### Focus effect (src/src/components/TaskFlow.tsx) -/

/-- A pan-and-highlight request issued to the viewport controller. -/
inductive NavAction where
  | panHighlight (nodeId : Str) (options : PanToNodeOptions)
deriving DecidableEq

/-- The focusTaskId effect of TaskFlow: do nothing when the instance handle
or the focus id is falsy; otherwise issue exactly one pan-and-highlight for
the id (zoom 1.5, duration 300, node size 350 by 180) and clear focusTaskId.
One invocation of the effect is one application of this function; the
actions issued are returned alongside the updated state. -/
def focusTaskEffect (reactFlowInstance : Option ReactFlowInstance)
    (s : SelectionState) : SelectionState × List NavAction :=
  match reactFlowInstance, s.focusTaskId with
  | some _, some fid =>
    if fid.isEmpty then (s, [])
    else
      (setFocusTaskId none s,
       [NavAction.panHighlight fid
         { zoom := some (3 / 2 : ℚ), duration := some 300,
           nodeWidth := some 350, nodeHeight := some 180 }])
  | _, _ => (s, [])

/-! ### Follow-up map (src/src/data/fetchTaskData.js) -/

/-- The task reference inside an API task requirement. -/
structure APITaskRef where
  id : Str
  name : Str
deriving DecidableEq

/-- One entry of taskRequirements. -/
structure APITaskRequirement where
  task : APITaskRef
deriving DecidableEq

/-- The trader record of an API task. -/
structure APITrader where
  id : Str
  name : Str
  imageLink : Option Str := none
deriving DecidableEq

/-- An API task record (interface APITask), restricted to the fields the
embedded functions consult (id, name, trader, minPlayerLevel,
taskRequirements). -/
structure APITask where
  id : Str
  name : Str
  trader : APITrader
  minPlayerLevel : Option Nat := none
  taskRequirements : Option (List APITaskRequirement) := none
deriving DecidableEq

/-- The follow-up entry registered for one declaring task. -/
def mkFollowUpOf (task : APITask) : FollowUpTask :=
  { taskId := task.id, taskName := task.name, traderName := some task.trader.name }

/-- buildFollowUpTasksMap: for every task and every entry of its
taskRequirements, append the task as a follow-up of the referenced
prerequisite.  The JS Map is modelled extensionally by its get: the map is a
function from a key to the list accumulated for that key (has/set/push on
the Map amount to appending to the list of the key, starting from empty). -/
def buildFollowUpTasksMap (tasks : List APITask) : Str → List FollowUpTask :=
  tasks.foldl
    (fun followUpMap task =>
      match task.taskRequirements with
      | some reqs =>
        reqs.foldl
          (fun followUpMap req => fun key =>
            if req.task.id == key then followUpMap key ++ [mkFollowUpOf task]
            else followUpMap key)
          followUpMap
      | none => followUpMap)
    (fun _ => [])

/-- The follow-up list transformTasksData assigns to the task of a given id:
followUpMap.get(task.id) with fallback to the empty list, which the
extensional map model returns directly. -/
def followUpTasksOf (tasks : List APITask) (taskId : Str) : List FollowUpTask :=
  buildFollowUpTasksMap tasks taskId

/-- transformUnlockRequirements: an optional level requirement (when
minPlayerLevel exceeds 1) followed by one task-type requirement per
taskRequirements entry. -/
def transformUnlockRequirements (taskRequirements : Option (List APITaskRequirement))
    (minPlayerLevel : Option Nat) : List UnlockRequirement :=
  (match minPlayerLevel with
   | some lvl => if 1 < lvl then [{ type := ReqType.level, level := some lvl }] else []
   | none => []) ++
  ((taskRequirements.getD []).map (fun req =>
    { type := ReqType.task, taskId := some req.task.id, taskName := some req.task.name }))

/-! ### Claim-side notions and concrete inputs -/

/-- The claim notion of an incoming edge: the node id is the target of some
edge. -/
def hasIncomingEdge (edges : List FlowEdge) (nid : Str) : Bool :=
  edges.any (fun e => e.target == nid)

/-- A fixed trader used by concrete task records. -/
def demoTrader : Trader := { id := strOf "prapor", name := strOf "Prapor" }

/-- A concrete task record with the given id and unlock requirements. -/
def taskRecord (id : String) (reqs : List UnlockRequirement) : TaskData :=
  { taskId := strOf id, trader := demoTrader, taskName := strOf id,
    unlockRequirements := reqs }

/-- A task-type unlock requirement on the given prerequisite id. -/
def taskReqOn (id : String) : UnlockRequirement :=
  { type := ReqType.task, taskId := some (strOf id), taskName := some (strOf id) }

/-- A concrete item reward with the given description. -/
def rewardItem (desc : String) : TaskReward :=
  { type := RewardType.item, value := RewardValue.num 1, description := some (strOf desc) }

/-- A concrete money reward with neither description nor string value. -/
def rewardMoney : TaskReward :=
  { type := RewardType.money, value := RewardValue.num 5000 }

/-- A concrete task record with the given id and rewards. -/
def taskWithRewards (id : String) (rewards : List TaskReward) : TaskData :=
  { taskId := strOf id, trader := demoTrader, taskName := strOf id,
    rewards := rewards }

/-- Two records where the second declares the first as prerequisite twice. -/
def dupReqTasks : List TaskData :=
  [taskRecord "a" [], taskRecord "b" [taskReqOn "a", taskReqOn "a"]]

/-- One record that declares itself as its own prerequisite. -/
def selfReqTasks : List TaskData :=
  [taskRecord "s" [taskReqOn "s"]]

/-- Two records forming the single dependency a before b. -/
def chainTasks : List TaskData :=
  [taskRecord "a" [], taskRecord "b" [taskReqOn "a"]]

/-- A fixed trader used by concrete API task records. -/
def demoAPITrader : APITrader := { id := strOf "prapor", name := strOf "Prapor" }

/-- A concrete API task record. -/
def apiTask (id : String) (reqs : Option (List APITaskRequirement)) : APITask :=
  { id := strOf id, name := strOf id, trader := demoAPITrader,
    taskRequirements := reqs }

/-- A concrete API task requirement referencing the given prerequisite id. -/
def apiReqOn (id : String) : APITaskRequirement := ⟨⟨strOf id, strOf id⟩⟩

/-- Two API records where the second lists the first as prerequisite twice. -/
def dupReqAPITasks : List APITask :=
  [apiTask "p" none, apiTask "t" (some [apiReqOn "p", apiReqOn "p"])]

/-- Two API records where the second lists the first as prerequisite once. -/
def chainAPITasks : List APITask :=
  [apiTask "p" none, apiTask "t" (some [apiReqOn "p"])]

/-- Two concrete flow nodes. -/
def nodeA : FlowNode := { id := strOf "a" }

/-- The second concrete flow node. -/
def nodeB : FlowNode := { id := strOf "b" }

/-- A concrete edge from nodeA to nodeB. -/
def edgeAB : FlowEdge := { id := strOf "edge-a-b", source := strOf "a", target := strOf "b" }

/-- A concrete rendering surface handle that knows one node at (10, 20). -/
def demoInstance : ReactFlowInstance :=
  ⟨fun nid => if nid == strOf "task-1"
              then some { id := strOf "task-1", position := ⟨10, 20⟩ }
              else none⟩

/-- Stated from the claim: a reward is an exact match when its normalized
description or its normalized textual value equals the normalized query. -/
def specExact (r : TaskReward) (q : Str) : Bool :=
  (match r.description with
   | some d => normalizeString d == q
   | none => false) ||
  (match r.value with
   | RewardValue.str s => normalizeString s == q
   | RewardValue.num _ => false)

/-- Stated from the claim: a reward is a starts-with match when its
normalized description or normalized textual value starts with the query. -/
def specStarts (r : TaskReward) (q : Str) : Bool :=
  (match r.description with
   | some d => strStartsWith (normalizeString d) q
   | none => false) ||
  (match r.value with
   | RewardValue.str s => strStartsWith (normalizeString s) q
   | RewardValue.num _ => false)

/-- Stated from the claim: 100 for an exact match, 50 for a starts-with
match that is not exact, 10 for a substring-only match. -/
def specRewardScore (r : TaskReward) (q : Str) : Nat :=
  if specExact r q then 100 else if specStarts r q then 50 else 10

/-- Stated from the claim: one declarative match entry per task with a
non-empty list of matched rewards, scored by the sum of the per-reward
scores; tasks with no matched reward are excluded. -/
def specCollect (q : Str) (tasks : List TaskData) : List SearchMatchResult :=
  tasks.filterMap (fun task =>
    let mr := task.rewards.filter (fun r => isRewardMatched r q)
    if mr.isEmpty then none
    else some { taskId := task.taskId, matchedRewards := mr,
                score := (mr.map (fun r => specRewardScore r q)).sum })

/-- A concrete one-task collection for the reward-search witness. -/
def demoSearchTasks : List TaskData :=
  [taskWithRewards "t1" [rewardItem "AK-47"]]

/-! ### Helper lemmas -/

/-- The head of a filtered list is the first element satisfying the filter. -/
theorem head_filter_eq_find {α : Type} (p : α → Bool) (l : List α) :
    (l.filter p).head? = l.find? p := by
  induction l with
  | nil => rfl
  | cons a l ih =>
    by_cases h : p a
    · simp [List.filter_cons, h, List.find?_cons, ih]
    · simp [List.filter_cons, h, List.find?_cons, ih]

/-- Membership of an id among mapped edge targets is an incoming-edge test. -/
theorem contains_targets (edges : List FlowEdge) (nid : Str) :
    ((edges.map (fun e => e.target)).contains nid) = hasIncomingEdge edges nid := by
  induction edges with
  | nil => rfl
  | cons e es ih =>
    simp only [List.map_cons, List.contains_cons, hasIncomingEdge, List.any_cons] at *
    rw [ih]
    rw [Bool.eq_iff_iff]
    simp only [Bool.or_eq_true, beq_iff_eq]
    constructor
    · rintro (h | h)
      · exact Or.inl h.symm
      · exact Or.inr h
    · rintro (h | h)
      · exact Or.inl h.symm
      · exact Or.inr h

/-! ### C9 -/

/-- C9: clearFilters resets the merchant filter and both search terms and
leaves selectedTaskId and focusTaskId unchanged. -/
theorem clearFilters_resets_filters_only (s : SelectionState) :
    (clearFilters s).merchantFilter = none ∧
    (clearFilters s).searchTerm = [] ∧
    (clearFilters s).rewardSearchTerm = [] ∧
    (clearFilters s).selectedTaskId = s.selectedTaskId ∧
    (clearFilters s).focusTaskId = s.focusTaskId :=
  ⟨rfl, rfl, rfl, rfl, rfl⟩

/-! ### C6 -/

/-- C6: panToNode returns false and issues no setCenter call when the handle
is null or the node is absent; otherwise it issues exactly one setCenter call
at the node position plus half the caller-supplied or default 320 by 100
dimensions, with the configured zoom (default 1.5) and duration (default
300), and returns true. -/
theorem panToNode_correct (inst : Option ReactFlowInstance) (nodeId : Str)
    (options : PanToNodeOptions) :
    (inst = none → panToNode inst nodeId options = (false, [])) ∧
    (∀ i, inst = some i → i.getNode nodeId = none →
      panToNode inst nodeId options = (false, [])) ∧
    (∀ i node, inst = some i → i.getNode nodeId = some node →
      panToNode inst nodeId options =
        (true, [{ x := node.position.x + options.nodeWidth.getD 320 / 2,
                  y := node.position.y + options.nodeHeight.getD 100 / 2,
                  zoom := options.zoom.getD (3 / 2 : ℚ),
                  duration := options.duration.getD 300 }])) := by
  refine ⟨?_, ?_, ?_⟩
  · intro h; subst h; rfl
  · intro i hi hn; subst hi; simp [panToNode, hn]
  · intro i node hi hn; subst hi; simp [panToNode, hn]

/-- C6 witness: on the concrete handle, panning to an absent node fails with
no setCenter call, and panning to the known node issues the single expected
call. -/
theorem panToNode_correct_witness :
    panToNode (some demoInstance) (strOf "does-not-exist") {} = (false, []) ∧
    panToNode (some demoInstance) (strOf "task-1") {} =
      (true, [{ x := 10 + 320 / 2, y := 20 + 100 / 2,
                zoom := (3 / 2 : ℚ), duration := 300 }]) := by
  constructor
  · exact (panToNode_correct (some demoInstance) (strOf "does-not-exist") {}).2.1
      demoInstance rfl rfl
  · have h := (panToNode_correct (some demoInstance) (strOf "task-1") {}).2.2
      demoInstance { id := strOf "task-1", position := ⟨10, 20⟩ } rfl rfl
    simpa using h

/-! ### C8 -/

/-- C8: the focus request is one-shot.  Setting focusTaskId to a concrete id
and running the effect with the instance available issues exactly one
pan-and-highlight and resets focusTaskId to none; running the effect while
focusTaskId is none issues nothing and changes nothing; and setting the same
id again after the reset issues a fresh pan-and-highlight. -/
theorem focusTaskId_one_shot (i : ReactFlowInstance) (s : SelectionState)
    (fid : Str) (h : fid ≠ []) :
    ((focusTaskEffect (some i) (setFocusTaskId (some fid) s)).2 =
        [NavAction.panHighlight fid
          { zoom := some (3 / 2 : ℚ), duration := some 300,
            nodeWidth := some 350, nodeHeight := some 180 }] ∧
      (focusTaskEffect (some i) (setFocusTaskId (some fid) s)).1.focusTaskId = none) ∧
    (∀ inst s2, s2.focusTaskId = none → focusTaskEffect inst s2 = (s2, [])) ∧
    ((focusTaskEffect (some i)
        (setFocusTaskId (some fid)
          (focusTaskEffect (some i) (setFocusTaskId (some fid) s)).1)).2 =
      [NavAction.panHighlight fid
        { zoom := some (3 / 2 : ℚ), duration := some 300,
          nodeWidth := some 350, nodeHeight := some 180 }]) := by
  have hne : fid.isEmpty = false := by
    cases fid with
    | nil => exact absurd rfl h
    | cons c cs => rfl
  refine ⟨⟨?_, ?_⟩, ?_, ?_⟩
  · simp [focusTaskEffect, setFocusTaskId, hne]
  · simp [focusTaskEffect, setFocusTaskId, hne]
  · intro inst s2 h2
    cases inst with
    | none => rfl
    | some i2 => simp [focusTaskEffect, h2]
  · simp [focusTaskEffect, setFocusTaskId, hne]

/-- C8 witness: the one-shot behavior at a concrete id and state. -/
theorem focusTaskId_one_shot_witness :
    (focusTaskEffect (some demoInstance)
        (setFocusTaskId (some (strOf "t1")) {})).2 =
      [NavAction.panHighlight (strOf "t1")
        { zoom := some (3 / 2 : ℚ), duration := some 300,
          nodeWidth := some 350, nodeHeight := some 180 }] :=
  (focusTaskId_one_shot demoInstance {} (strOf "t1") (by decide)).1.1

/-! ### C5 -/

/-- C5: findStartNodeId returns none exactly on an empty node list; whenever
some node has no incoming edge the first such node exists and its id is
returned; and when every node has an incoming edge the first node's id is
returned. -/
theorem findStartNodeId_correct (nodes : List FlowNode) (edges : List FlowEdge) :
    (findStartNodeId nodes edges = none ↔ nodes = []) ∧
    ((∃ n ∈ nodes, hasIncomingEdge edges n.id = false) →
      (nodes.find? (fun n => !(hasIncomingEdge edges n.id))).isSome = true) ∧
    (∀ n, nodes.find? (fun n2 => !(hasIncomingEdge edges n2.id)) = some n →
      findStartNodeId nodes edges = some n.id ∧ hasIncomingEdge edges n.id = false) ∧
    ((∀ n ∈ nodes, hasIncomingEdge edges n.id = true) → ∀ n0, nodes.head? = some n0 →
      findStartNodeId nodes edges = some n0.id) := by
  have hfun : (fun n : FlowNode => !((edges.map (fun e => e.target)).contains n.id)) =
      (fun n : FlowNode => !(hasIncomingEdge edges n.id)) := by
    funext n; rw [contains_targets]
  refine ⟨?_, ?_, ?_, ?_⟩
  · cases nodes with
    | nil => simp [findStartNodeId]
    | cons n0 rest =>
      simp only [findStartNodeId]
      cases h : (n0 :: rest).filter
          (fun n => !((edges.map (fun e => e.target)).contains n.id)) with
      | nil => simp [h]
      | cons s tl => simp [h]
  · intro ⟨n, hn, hni⟩
    rw [List.find?_isSome]
    exact ⟨n, hn, by simp [hni]⟩
  · intro n hfind
    have hp := List.find?_some hfind
    have hni : hasIncomingEdge edges n.id = false := by simpa using hp
    refine ⟨?_, hni⟩
    cases nodes with
    | nil => simp [List.find?] at hfind
    | cons n0 rest =>
      simp only [findStartNodeId]
      have hh : ((n0 :: rest).filter
          (fun n2 => !((edges.map (fun e => e.target)).contains n2.id))).head? = some n := by
        rw [hfun, head_filter_eq_find]
        exact hfind
      cases h : (n0 :: rest).filter
          (fun n2 => !((edges.map (fun e => e.target)).contains n2.id)) with
      | nil => rw [h] at hh; exact absurd hh (by simp)
      | cons s tl =>
        rw [h] at hh
        simp only [List.head?_cons, Option.some_inj] at hh
        subst hh
        rfl
  · intro hall n0 h0
    cases nodes with
    | nil => simp at h0
    | cons m rest =>
      have hm : m = n0 := by simpa using h0
      subst hm
      simp only [findStartNodeId]
      have hnil : (m :: rest).filter
          (fun n => !((edges.map (fun e => e.target)).contains n.id)) = [] := by
        rw [hfun]
        rw [List.filter_eq_nil_iff]
        intro a ha
        have := hall a ha
        simp [this]
      rw [hnil]

/-- C5 witness: on two nodes with one edge, the root node a is found first,
has no incoming edge, and its id is returned. -/
theorem findStartNodeId_correct_witness :
    findStartNodeId [nodeA, nodeB] [edgeAB] = some (strOf "a") ∧
    hasIncomingEdge [edgeAB] (strOf "a") = false := by
  have h := (findStartNodeId_correct [nodeA, nodeB] [edgeAB]).2.2.1 nodeA rfl
  exact ⟨h.1, h.2⟩

/-! ### Counting lemmas for the graph builder -/

/-- Counting over a mapped filter pulls the predicate inside. -/
theorem countP_filter_map {α β : Type} (q : α → Bool) (f : α → β) (p : β → Bool)
    (l : List α) :
    ((l.filter q).map f).countP p = l.countP (fun x => q x && p (f x)) := by
  induction l with
  | nil => rfl
  | cons a l ih =>
    by_cases h : q a
    · simp [List.filter_cons, h, List.countP_cons, ih]
    · simp [List.filter_cons, h, List.countP_cons, ih]

/-- Counting over a flattened map sums the per-element counts. -/
theorem countP_flatMap {α β : Type} (g : α → List β) (p : β → Bool) (l : List α) :
    (l.flatMap g).countP p = (l.map (fun x => (g x).countP p)).sum := by
  induction l with
  | nil => rfl
  | cons a l ih => simp [List.flatMap_cons, List.countP_append, ih]

/-- A sum of mapped naturals is positive exactly when one summand is. -/
theorem sum_map_pos_iff {α : Type} (f : α → Nat) (l : List α) :
    0 < (l.map f).sum ↔ ∃ a ∈ l, 0 < f a := by
  induction l with
  | nil => simp
  | cons a l ih =>
    simp only [List.map_cons, List.sum_cons, List.mem_cons]
    rw [add_pos_iff, ih]
    constructor
    · rintro (h | ⟨b, hb, hfb⟩)
      · exact ⟨a, Or.inl rfl, h⟩
      · exact ⟨b, Or.inr hb, hfb⟩
    · rintro ⟨b, hb | hb, hfb⟩
      · subst hb; exact Or.inl hfb
      · exact Or.inr ⟨b, hb, hfb⟩

/-- Source of the edge record pushed by generateEdges. -/
@[simp] theorem mkTaskEdge_source (a b : Str) : (mkTaskEdge a b).source = a := rfl

/-- Target of the edge record pushed by generateEdges. -/
@[simp] theorem mkTaskEdge_target (a b : Str) : (mkTaskEdge a b).target = b := rfl

/-- The filter test of generateEdges conjoined with the source test of a
produced edge is the qualifying-requirement test of the claim. -/
theorem edgeReqPred_eq (tasks : List TaskData) (p : Str) (r : UnlockRequirement) :
    ((r.type == ReqType.task &&
        (match r.taskId with
         | some tid => !tid.isEmpty && (tasks.map (fun t => t.taskId)).contains tid
         | none => false)) && (r.taskId.getD [] == p))
      = (r.type == ReqType.task && r.taskId == some p && !p.isEmpty &&
          (tasks.map (fun t => t.taskId)).contains p) := by
  cases hr : r.taskId with
  | none => simp [hr]
  | some tid =>
    by_cases htp : tid = p
    · subst htp
      rw [Bool.eq_iff_iff]
      simp [hr]
      tauto
    · rw [Bool.eq_iff_iff]
      simp [hr, htp]

/-- Per ordered pair, generateEdges emits one edge per qualifying
requirement occurrence, summed over the records whose id is the target. -/
theorem generateEdges_countP_eq (tasks : List TaskData) (p t : Str) :
    (generateEdges tasks).countP (fun e => e.source == p && e.target == t) =
      (tasks.map (fun task =>
        if task.taskId == t then
          task.unlockRequirements.countP (fun r =>
            r.type == ReqType.task && r.taskId == some p && !p.isEmpty &&
              (tasks.map (fun u => u.taskId)).contains p)
        else 0)).sum := by
  simp only [generateEdges]
  rw [countP_flatMap]
  apply congrArg List.sum
  apply List.map_congr_left
  intro task _
  rw [List.map_map, countP_filter_map]
  by_cases hb : (task.taskId == t) = true
  · rw [if_pos hb]
    apply List.countP_congr
    intro r _
    simp only [Function.comp, mkTaskEdge_source, mkTaskEdge_target, hb,
      Bool.and_true]
    rw [edgeReqPred_eq tasks p r]
  · rw [if_neg hb]
    have hb2 : (task.taskId == t) = false := by simpa using hb
    simp [Function.comp, hb2]

/-! ### C1 -/

/-- C1 counterexample: when a record declares the same prerequisite twice,
two edges are produced for the single pair (a, b), not one. -/
theorem c1_duplicate_requirement_two_edges :
    (generateEdges dupReqTasks).countP
        (fun e => e.source == strOf "a" && e.target == strOf "b") = 2 ∧
      ¬ (generateEdges dupReqTasks).countP
        (fun e => e.source == strOf "a" && e.target == strOf "b") = 1 := by
  constructor
  · decide
  · decide

/-- C1 amended: the number of edges from p to t equals the number of
task-type unlock requirement occurrences with non-empty taskId p declared by
records with taskId t, counted when p is an id of the collection; an edge
from p to t exists exactly when at least one such occurrence exists. -/
theorem generateEdges_characterization (tasks : List TaskData) (p t : Str) :
    ((generateEdges tasks).countP (fun e => e.source == p && e.target == t) =
      (tasks.map (fun task =>
        if task.taskId == t then
          task.unlockRequirements.countP (fun r =>
            r.type == ReqType.task && r.taskId == some p && !p.isEmpty &&
              (tasks.map (fun u => u.taskId)).contains p)
        else 0)).sum) ∧
    ((∃ e ∈ generateEdges tasks, e.source = p ∧ e.target = t) ↔
      ∃ task ∈ tasks, task.taskId = t ∧ ∃ r ∈ task.unlockRequirements,
        r.type = ReqType.task ∧ r.taskId = some p ∧ p ≠ [] ∧
          p ∈ tasks.map (fun u => u.taskId)) := by
  refine ⟨generateEdges_countP_eq tasks p t, ?_⟩
  have hiff : (∃ e ∈ generateEdges tasks, e.source = p ∧ e.target = t) ↔
      0 < (generateEdges tasks).countP (fun e => e.source == p && e.target == t) := by
    rw [List.countP_pos_iff]
    constructor
    · rintro ⟨e, he, h1, h2⟩
      exact ⟨e, he, by simp [h1, h2]⟩
    · rintro ⟨e, he, hp⟩
      simp only [Bool.and_eq_true, beq_iff_eq] at hp
      exact ⟨e, he, hp.1, hp.2⟩
  rw [hiff, generateEdges_countP_eq tasks p t, sum_map_pos_iff]
  constructor
  · rintro ⟨task, htask, hpos⟩
    by_cases hb : (task.taskId == t) = true
    · rw [if_pos hb, List.countP_pos_iff] at hpos
      obtain ⟨r, hr, hrp⟩ := hpos
      have ht : task.taskId = t := by simpa using hb
      simp only [Bool.and_eq_true, beq_iff_eq, Bool.not_eq_true',
        List.isEmpty_eq_false] at hrp
      obtain ⟨⟨⟨h1, h2⟩, h3⟩, h4⟩ := hrp
      have h4m : p ∈ tasks.map (fun u => u.taskId) := by
        simpa [List.contains, List.elem_iff] using h4
      exact ⟨task, htask, ht, r, hr, h1, h2, h3, h4m⟩
    · rw [if_neg hb] at hpos
      exact absurd hpos (by simp)
  · rintro ⟨task, htask, ht, r, hr, h1, h2, h3, h4⟩
    refine ⟨task, htask, ?_⟩
    have hb : (task.taskId == t) = true := by simp [ht]
    rw [if_pos hb, List.countP_pos_iff]
    refine ⟨r, hr, ?_⟩
    simp only [Bool.and_eq_true, beq_iff_eq, Bool.not_eq_true',
      List.isEmpty_eq_false]
    refine ⟨⟨⟨h1, h2⟩, h3⟩, ?_⟩
    simpa [List.contains, List.elem_iff] using h4


/-! ### C7 -/

/-- C7 counterexample: a record that declares a task-type unlock requirement
referencing its own taskId produces a self-loop edge. -/
theorem c7_self_reference_makes_self_loop :
    (generateEdges selfReqTasks).any (fun e => e.source == e.target) = true := by
  decide

/-- C7 amended: the edge set contains no self-loop provided no record
declares a task-type unlock requirement referencing its own taskId. -/
theorem generateEdges_no_self_loop (tasks : List TaskData)
    (h : ∀ task ∈ tasks, ∀ r ∈ task.unlockRequirements,
      r.type = ReqType.task → r.taskId ≠ some task.taskId) :
    ∀ e ∈ generateEdges tasks, e.source ≠ e.target := by
  intro e he
  simp only [generateEdges, List.mem_flatMap, List.mem_map, List.mem_filter] at he
  obtain ⟨task, htask, a, ⟨req, ⟨hreq, hkeep⟩, hgetD⟩, hedge⟩ := he
  subst hedge
  simp only [mkTaskEdge_source, mkTaskEdge_target]
  simp only [Bool.and_eq_true, beq_iff_eq] at hkeep
  obtain ⟨htype, hmatch⟩ := hkeep
  cases hrt : req.taskId with
  | none => rw [hrt] at hmatch; exact absurd hmatch (by simp)
  | some tid =>
    rw [hrt] at hgetD
    simp only [Option.getD_some] at hgetD
    subst hgetD
    intro hcontra
    refine h task htask req hreq htype ?_
    rw [hrt, hcontra]

/-- C7 witness: on the acyclic two-record input, every produced edge has
distinct endpoints. -/
theorem generateEdges_no_self_loop_witness :
    (generateEdges chainTasks).all (fun e => !(e.source == e.target)) = true := by
  rw [List.all_eq_true]
  intro e he
  have h := generateEdges_no_self_loop chainTasks (by decide) e he
  simpa using h

/-! ### Follow-up map lemmas -/

/-- One inner fold of buildFollowUpTasksMap appends the declaring task once
per requirement entry matching the key. -/
theorem followUpInner_eq (task : APITask) (reqs : List APITaskRequirement)
    (m : Str → List FollowUpTask) (key : Str) :
    (reqs.foldl
        (fun followUpMap req => fun k =>
          if req.task.id == k then followUpMap k ++ [mkFollowUpOf task]
          else followUpMap k)
        m) key
      = m key ++ ((reqs.filter (fun req => req.task.id == key)).map
          (fun _ => mkFollowUpOf task)) := by
  induction reqs generalizing m with
  | nil => simp
  | cons req reqs ih =>
    rw [List.foldl_cons, ih]
    by_cases h : (req.task.id == key) = true
    · simp [List.filter_cons, h, List.append_assoc]
    · simp [List.filter_cons, h]

/-- The fold of buildFollowUpTasksMap over any starting map, read at a key. -/
theorem buildFollowUpAux (tasks : List APITask) (m : Str → List FollowUpTask)
    (key : Str) :
    (tasks.foldl
        (fun followUpMap task =>
          match task.taskRequirements with
          | some reqs =>
            reqs.foldl
              (fun followUpMap req => fun k =>
                if req.task.id == k then followUpMap k ++ [mkFollowUpOf task]
                else followUpMap k)
              followUpMap
          | none => followUpMap)
        m) key
      = m key ++ tasks.flatMap (fun task =>
          (((task.taskRequirements.getD []).filter
            (fun req => req.task.id == key)).map (fun _ => mkFollowUpOf task))) := by
  induction tasks generalizing m with
  | nil => simp
  | cons task tasks ih =>
    rw [List.foldl_cons, ih]
    cases hreq : task.taskRequirements with
    | none => simp [hreq]
    | some reqs =>
      dsimp only []
      rw [followUpInner_eq, List.flatMap_cons, hreq, Option.getD_some,
        List.append_assoc]

/-- Extensional characterization of buildFollowUpTasksMap at a key. -/
theorem buildFollowUpTasksMap_eq (tasks : List APITask) (key : Str) :
    buildFollowUpTasksMap tasks key =
      tasks.flatMap (fun task =>
        (((task.taskRequirements.getD []).filter
          (fun req => req.task.id == key)).map (fun _ => mkFollowUpOf task))) := by
  have h := buildFollowUpAux tasks (fun _ => []) key
  simpa [buildFollowUpTasksMap] using h

/-- Counting a declaring id in the follow-up list of a prerequisite. -/
theorem followUpMap_countP (tasks : List APITask) (pid tid : Str) :
    (buildFollowUpTasksMap tasks pid).countP (fun fu => fu.taskId == tid) =
      (tasks.map (fun task =>
        if task.id == tid then
          (task.taskRequirements.getD []).countP (fun req => req.task.id == pid)
        else 0)).sum := by
  rw [buildFollowUpTasksMap_eq, countP_flatMap]
  apply congrArg List.sum
  apply List.map_congr_left
  intro task _
  rw [countP_filter_map]
  by_cases hb : (task.id == tid) = true
  · rw [if_pos hb]
    apply List.countP_congr
    intro req _
    simp [mkFollowUpOf, hb]
  · rw [if_neg hb]
    have hb2 : (task.id == tid) = false := by simpa using hb
    simp [mkFollowUpOf, hb2]

/-- Mapped, conditionally zero summands reduce to a sum over the filter. -/
theorem sum_map_ite_filter {α : Type} (q : α → Bool) (f : α → Nat) (l : List α) :
    (l.map (fun x => if q x then f x else 0)).sum = ((l.filter q).map f).sum := by
  induction l with
  | nil => rfl
  | cons a l ih =>
    by_cases h : q a
    · simp [List.filter_cons, h, ih]
    · simp [List.filter_cons, h, ih]

/-- The task-type unlock requirements produced by the transformation count
exactly the taskRequirements entries referencing a given prerequisite. -/
theorem transform_taskType_countP (trs : Option (List APITaskRequirement))
    (lvl : Option Nat) (pid : Str) :
    (transformUnlockRequirements trs lvl).countP
        (fun r => r.type == ReqType.task && r.taskId == some pid) =
      (trs.getD []).countP (fun req => req.task.id == pid) := by
  cases lvl with
  | none =>
    simp only [transformUnlockRequirements, List.nil_append]
    rw [List.countP_map]
    apply List.countP_congr
    intro req _
    simp [Function.comp]
  | some l =>
    by_cases h : 1 < l
    · simp only [transformUnlockRequirements, h, if_true]
      rw [List.countP_append, List.countP_map]
      have h0 : ([({ type := ReqType.level, level := some l } :
          UnlockRequirement)]).countP
            (fun r => r.type == ReqType.task && r.taskId == some pid) = 0 := by
        simp [List.countP_cons]
      rw [h0, Nat.zero_add]
      apply List.countP_congr
      intro req _
      simp [Function.comp]
    · simp only [transformUnlockRequirements, h, if_false, List.nil_append]
      rw [List.countP_map]
      apply List.countP_congr
      intro req _
      simp [Function.comp]

/-! ### C2 -/

/-- C2 counterexample: when a record declares the same prerequisite twice,
its id appears twice, not once, in the follow-up list of that prerequisite,
although the prerequisite is in the collection. -/
theorem c2_duplicate_requirement_twice :
    (followUpTasksOf dupReqAPITasks (strOf "p")).countP
        (fun fu => fu.taskId == strOf "t") = 2 ∧
      ¬ (followUpTasksOf dupReqAPITasks (strOf "p")).countP
        (fun fu => fu.taskId == strOf "t") = 1 := by
  constructor
  · decide
  · decide

/-- C2 amended: when t is the unique record with its id and declares the
prerequisite p (present in the collection) exactly once, t's id appears
exactly once in the follow-up list computed for p, and the transformed
record declares exactly one task-type unlock requirement referencing p. -/
theorem followUps_inverse_of_requirements (tasks : List APITask) (t : APITask)
    (pid : Str)
    (_hp : pid ∈ tasks.map (fun u => u.id))
    (huniq : tasks.filter (fun r => r.id == t.id) = [t])
    (honce : (t.taskRequirements.getD []).countP
      (fun req => req.task.id == pid) = 1) :
    (followUpTasksOf tasks pid).countP (fun fu => fu.taskId == t.id) = 1 ∧
    (transformUnlockRequirements t.taskRequirements t.minPlayerLevel).countP
      (fun r => r.type == ReqType.task && r.taskId == some pid) = 1 := by
  constructor
  · show (buildFollowUpTasksMap tasks pid).countP (fun fu => fu.taskId == t.id) = 1
    rw [followUpMap_countP, sum_map_ite_filter, huniq]
    simpa using honce
  · rw [transform_taskType_countP]
    exact honce

/-- C2 witness: in the two-record chain, record t appears exactly once among
the follow-ups of p, and its transformed record declares one task-type
requirement on p. -/
theorem followUps_inverse_of_requirements_witness :
    (followUpTasksOf chainAPITasks (strOf "p")).countP
        (fun fu => fu.taskId == (apiTask "t" (some [apiReqOn "p"])).id) = 1 ∧
    (transformUnlockRequirements
        (apiTask "t" (some [apiReqOn "p"])).taskRequirements
        (apiTask "t" (some [apiReqOn "p"])).minPlayerLevel).countP
      (fun r => r.type == ReqType.task && r.taskId == some (strOf "p")) = 1 :=
  followUps_inverse_of_requirements chainAPITasks (apiTask "t" (some [apiReqOn "p"]))
    (strOf "p") (by decide) (by decide) (by decide)

/-! ### String lemmas -/

/-- strIncludes coincides with list infix. -/
theorem strIncludes_infix_equiv (s pat : Str) : strIncludes s pat = true ↔ pat <:+: s := by
  induction s with
  | nil => simp [strIncludes, List.infix_nil, List.isEmpty_iff]
  | cons c rest ih =>
    simp only [strIncludes, Bool.or_eq_true, List.isPrefixOf_iff_prefix, ih,
      List.infix_cons_iff]

/-- Every string contains the empty pattern. -/
theorem strIncludes_nil_pat (s : Str) : strIncludes s [] = true := by
  rw [strIncludes_infix_equiv]
  exact List.nil_infix

/-- The trimmed string is empty exactly when every character is whitespace. -/
theorem trimStr_eq_nil_iff (l : Str) : trimStr l = [] ↔ ∀ c ∈ l, isWsCP c = true := by
  unfold trimStr
  constructor
  · intro h
    rw [List.reverse_eq_nil_iff, List.dropWhile_eq_nil_iff] at h
    intro c hc
    have hsplit := List.takeWhile_append_dropWhile isWsCP l
    rw [← hsplit] at hc
    rcases List.mem_append.mp hc with h1 | h2
    · exact List.mem_takeWhile_imp h1
    · exact h c (List.mem_reverse.mpr h2)
  · intro h
    have h1 : l.dropWhile isWsCP = [] :=
      List.dropWhile_eq_nil_iff.mpr (fun x hx => h x hx)
    rw [h1]
    rfl

/-- Lowercasing does not change whether a code point is whitespace. -/
theorem isWsCP_toLowerCP (c : Nat) : isWsCP (toLowerCP c) = isWsCP c := by
  unfold toLowerCP isWsCP
  by_cases h : 65 ≤ c ∧ c ≤ 90
  · rw [if_pos h]
    simp only [decide_eq_decide]
    omega
  · rw [if_neg h]

/-- The normalized string is empty exactly when the trimmed string is. -/
theorem normalizeString_eq_nil_iff (s : Str) :
    normalizeString s = [] ↔ trimStr s = [] := by
  unfold normalizeString
  rw [trimStr_eq_nil_iff, trimStr_eq_nil_iff]
  unfold toLowerStr
  constructor
  · intro h c hc
    have h2 := h (toLowerCP c) (List.mem_map_of_mem _ hc)
    rwa [isWsCP_toLowerCP] at h2
  · intro h x hx
    rcases List.mem_map.mp hx with ⟨c, hc, rfl⟩
    rw [isWsCP_toLowerCP]
    exact h c hc

/-- The head of a dropWhile result falsifies the dropped test. -/
theorem head_dropWhile_false (p : Nat → Bool) (l : Str) (c : Nat)
    (h : (l.dropWhile p).head? = some c) : p c = false := by
  have h2 := List.head?_dropWhile_not p l
  rw [h] at h2
  exact h2

/-- The first character of a trimmed string is not whitespace. -/
theorem trimStr_head_not_ws (l : Str) (c : Nat)
    (h : (trimStr l).head? = some c) : isWsCP c = false := by
  unfold trimStr at h
  rw [List.head?_reverse] at h
  obtain ⟨w, hw⟩ := List.dropWhile_suffix (l := (l.dropWhile isWsCP).reverse) isWsCP
  have hY : ((l.dropWhile isWsCP).reverse).getLast? = some c := by
    rw [← hw, List.getLast?_append, h]
    rfl
  have hrev := List.head?_reverse ((l.dropWhile isWsCP).reverse)
  rw [List.reverse_reverse] at hrev
  have hYh : (l.dropWhile isWsCP).head? = some c := by
    rw [hrev, hY]
  exact head_dropWhile_false _ _ _ hYh

/-- The last character of a trimmed string is not whitespace. -/
theorem trimStr_getLast_not_ws (l : Str) (c : Nat)
    (h : (trimStr l).getLast? = some c) : isWsCP c = false := by
  unfold trimStr at h
  rw [List.getLast?_reverse] at h
  exact head_dropWhile_false _ _ _ h

/-- A non-empty pattern whose head is not dropped survives dropWhile on the
haystack. -/
theorem infix_dropWhile_of_head (p : Nat → Bool) (pat : Str) (hne : pat ≠ [])
    (hhead : ∀ c, pat.head? = some c → p c = false) :
    ∀ h : Str, pat <:+: h → pat <:+: h.dropWhile p := by
  intro h hinf
  induction h with
  | nil => rw [List.infix_nil] at hinf; exact absurd hinf hne
  | cons a h ih =>
    by_cases hpa : p a = true
    · rw [List.dropWhile_cons_of_pos hpa]
      rcases List.infix_cons_iff.mp hinf with hpre | hinf2
      · cases pat with
        | nil => exact absurd rfl hne
        | cons c pat2 =>
          rcases List.cons_prefix_cons.mp hpre with ⟨hca, _⟩
          have hfc : p c = false := hhead c rfl
          rw [hca] at hfc
          rw [hfc] at hpa
          simp at hpa
      · exact ih hinf2
    · have hpa2 : p a = false := by simpa using hpa
      rw [List.dropWhile_cons_of_neg (by simp [hpa2])]
      exact hinf

/-- Trimming the haystack does not change containment of a non-empty
pattern with non-whitespace edges. -/
theorem strIncludes_trim_haystack (h pat : Str) (hne : pat ≠ [])
    (hh : ∀ c, pat.head? = some c → isWsCP c = false)
    (hl : ∀ c, pat.getLast? = some c → isWsCP c = false) :
    strIncludes (trimStr h) pat = strIncludes h pat := by
  rw [Bool.eq_iff_iff, strIncludes_infix_equiv, strIncludes_infix_equiv]
  constructor
  · intro hinf
    refine hinf.trans ?_
    unfold trimStr
    have h1 : (h.dropWhile isWsCP) <:+ h := List.dropWhile_suffix _
    have h2 : ((h.dropWhile isWsCP).reverse.dropWhile isWsCP) <:+
        (h.dropWhile isWsCP).reverse := List.dropWhile_suffix _
    have h3 : ((h.dropWhile isWsCP).reverse.dropWhile isWsCP).reverse <+:
        (h.dropWhile isWsCP) := by
      have h4 := List.reverse_prefix.mpr h2
      rwa [List.reverse_reverse] at h4
    exact h3.isInfix.trans h1.isInfix
  · intro hinf
    unfold trimStr
    have s1 : pat <:+: h.dropWhile isWsCP :=
      infix_dropWhile_of_head isWsCP pat hne hh h hinf
    have s2 : pat.reverse <:+: (h.dropWhile isWsCP).reverse :=
      List.reverse_infix.mpr s1
    have hne2 : pat.reverse ≠ [] := by
      intro hcon
      exact hne (by simpa using hcon)
    have hh2 : ∀ c, pat.reverse.head? = some c → isWsCP c = false := by
      intro c hc
      rw [List.head?_reverse] at hc
      exact hl c hc
    have s3 : pat.reverse <:+: ((h.dropWhile isWsCP).reverse.dropWhile isWsCP) :=
      infix_dropWhile_of_head isWsCP pat.reverse hne2 hh2 _ s2
    rw [← List.reverse_infix]
    rwa [List.reverse_reverse]

/-- A reward matches the empty normalized query exactly when its description
is a truthy string or its value is string-typed. -/
theorem isRewardMatched_nil_iff (r : TaskReward) :
    isRewardMatched r [] = true ↔
      (∃ d, r.description = some d ∧ d ≠ []) ∨ (∃ s, r.value = RewardValue.str s) := by
  unfold isRewardMatched
  cases hd : r.description with
  | none =>
    cases hv : r.value with
    | num n => simp [strIncludes_nil_pat]
    | str s => simp [strIncludes_nil_pat]
  | some d =>
    cases hv : r.value with
    | num n => simp [strIncludes_nil_pat, List.isEmpty_eq_false]
    | str s => simp [strIncludes_nil_pat, List.isEmpty_eq_false]

/-! ### C3 -/

/-- C3: the combined matcher is the conjunction of the three independent
predicates of the claim: the trader filter passes when no filter is set
(null or the empty string, both falsy in the source) or the trader name
equals the filter exactly; the name search passes when the term trims to
empty or the lowercased task name or trader name contains the normalized
term; the reward search passes when the term is the empty string or some
reward matches it.  In particular the all-empty call matches every task. -/
theorem isTaskMatchedCombined_iff (task : TaskData)
    (searchTerm rewardSearchTerm : Str) (merchantFilter : Option Str) :
    (isTaskMatchedCombined task searchTerm rewardSearchTerm merchantFilter = true ↔
      ((∀ f, merchantFilter = some f → (f = [] ∨ task.trader.name = f)) ∧
       (trimStr searchTerm = [] ∨
         strIncludes (toLowerStr task.taskName) (normalizeString searchTerm) = true ∨
         strIncludes (toLowerStr task.trader.name) (normalizeString searchTerm) = true) ∧
       (rewardSearchTerm = [] ∨
         ∃ r ∈ task.rewards,
           isRewardMatched r (normalizeString rewardSearchTerm) = true))) ∧
    isTaskMatchedCombined task [] [] none = true := by
  constructor
  · have hm : (match merchantFilter with
        | some f => !(!f.isEmpty && task.trader.name != f)
        | none => true) = true ↔
        (∀ f, merchantFilter = some f → (f = [] ∨ task.trader.name = f)) := by
      cases merchantFilter with
      | none => simp
      | some f =>
        cases f with
        | nil => simp
        | cons a f2 =>
          simp [bne, List.isEmpty_eq_false]
    have hs : (if searchTerm.isEmpty then true
        else
          strIncludes (normalizeString task.taskName) (normalizeString searchTerm) ||
            strIncludes (normalizeString task.trader.name)
              (normalizeString searchTerm)) = true ↔
        (trimStr searchTerm = [] ∨
          strIncludes (toLowerStr task.taskName) (normalizeString searchTerm) = true ∨
          strIncludes (toLowerStr task.trader.name) (normalizeString searchTerm) = true) := by
      cases searchTerm with
      | nil =>
        constructor
        · intro _
          exact Or.inl rfl
        · intro _
          rfl
      | cons a s2 =>
        rw [if_neg (by simp : ¬ ((a :: s2).isEmpty = true))]
        by_cases hq : normalizeString (a :: s2) = []
        · rw [hq]
          simp [strIncludes_nil_pat, (normalizeString_eq_nil_iff (a :: s2)).mp hq]
        · have htrim : ¬ trimStr (a :: s2) = [] := fun hcon =>
            hq ((normalizeString_eq_nil_iff (a :: s2)).mpr hcon)
          have hh : ∀ c, (normalizeString (a :: s2)).head? = some c →
              isWsCP c = false :=
            fun c hc => trimStr_head_not_ws (toLowerStr (a :: s2)) c hc
          have hl : ∀ c, (normalizeString (a :: s2)).getLast? = some c →
              isWsCP c = false :=
            fun c hc => trimStr_getLast_not_ws (toLowerStr (a :: s2)) c hc
          have e1 : strIncludes (normalizeString task.taskName)
                (normalizeString (a :: s2)) =
              strIncludes (toLowerStr task.taskName) (normalizeString (a :: s2)) :=
            strIncludes_trim_haystack (toLowerStr task.taskName)
              (normalizeString (a :: s2)) hq hh hl
          have e2 : strIncludes (normalizeString task.trader.name)
                (normalizeString (a :: s2)) =
              strIncludes (toLowerStr task.trader.name) (normalizeString (a :: s2)) :=
            strIncludes_trim_haystack (toLowerStr task.trader.name)
              (normalizeString (a :: s2)) hq hh hl
          rw [e1, e2]
          simp [htrim]
    have hr : (if rewardSearchTerm.isEmpty then true
        else task.rewards.any (fun reward =>
          isRewardMatched reward (normalizeString rewardSearchTerm))) = true ↔
        (rewardSearchTerm = [] ∨
          ∃ r ∈ task.rewards,
            isRewardMatched r (normalizeString rewardSearchTerm) = true) := by
      cases rewardSearchTerm with
      | nil => simp
      | cons a r2 =>
        rw [if_neg (by simp : ¬ ((a :: r2).isEmpty = true))]
        rw [List.any_eq_true]
        simp
    simp only [isTaskMatchedCombined, Bool.and_eq_true]
    rw [hm, hs, hr, and_assoc]
  · rfl

/-! ### C10 -/

/-- C10: a non-empty whitespace-only reward term is not treated as empty by
the combined matcher: it matches exactly the tasks having a reward with a
truthy (non-empty) description or a string-typed value, while
findTasksByReward returns the empty result for the same term. -/
theorem whitespace_reward_term (task : TaskData) (tasks : List TaskData)
    (term : Str) (h1 : term ≠ []) (h2 : ∀ c ∈ term, isWsCP c = true) :
    (isTaskMatchedCombined task [] term none = true ↔
      ∃ r ∈ task.rewards,
        (∃ d, r.description = some d ∧ d ≠ []) ∨
        (∃ s, r.value = RewardValue.str s)) ∧
    findTasksByReward tasks term = { matchedIds := [], matchList := [] } := by
  have hnorm : normalizeString term = [] :=
    (normalizeString_eq_nil_iff term).mpr ((trimStr_eq_nil_iff term).mpr h2)
  constructor
  · have hterm : term.isEmpty = false := by
      cases term with
      | nil => exact absurd rfl h1
      | cons c cs => rfl
    simp only [isTaskMatchedCombined, Bool.and_eq_true]
    rw [if_neg (by simp [hterm] : ¬ (term.isEmpty = true))]
    rw [hnorm, List.any_eq_true]
    constructor
    · rintro ⟨⟨_, _⟩, r, hr, hm⟩
      exact ⟨r, hr, (isRewardMatched_nil_iff r).mp hm⟩
    · rintro ⟨r, hr, hm⟩
      exact ⟨⟨by trivial, by trivial⟩, r, hr, (isRewardMatched_nil_iff r).mpr hm⟩
  · simp [findTasksByReward, hnorm]

/-- C10 witness: for the three-blank term, a task whose only reward has
neither description nor string value does not match, and the reward search
returns the empty result. -/
theorem whitespace_reward_term_witness :
    isTaskMatchedCombined (taskWithRewards "w" [rewardMoney]) []
        (strOf "   ") none = false ∧
    findTasksByReward [taskWithRewards "w" [rewardMoney]] (strOf "   ") =
      { matchedIds := [], matchList := [] } := by
  have h := whitespace_reward_term (taskWithRewards "w" [rewardMoney])
    [taskWithRewards "w" [rewardMoney]] (strOf "   ") (by decide) (by decide)
  have hfalse : ¬ ∃ r ∈ (taskWithRewards "w" [rewardMoney]).rewards,
      (∃ d, r.description = some d ∧ d ≠ []) ∨
      (∃ s, r.value = RewardValue.str s) := by
    rintro ⟨r, hr, hcase⟩
    have hrm : r = rewardMoney := by simpa [taskWithRewards] using hr
    subst hrm
    rcases hcase with ⟨d, hd, _⟩ | ⟨s, hs⟩
    · exact absurd hd (by simp [rewardMoney])
    · exact absurd hs (by simp [rewardMoney])
  refine ⟨?_, h.2⟩
  cases hq : isTaskMatchedCombined (taskWithRewards "w" [rewardMoney]) []
      (strOf "   ") none with
  | false => rfl
  | true => exact absurd (h.1.mp hq) hfalse

/-! ### Sorting lemmas -/

/-- Insertion produces a permutation of pushing in front. -/
theorem insertByScoreDesc_perm (m : SearchMatchResult)
    (l : List SearchMatchResult) : (insertByScoreDesc m l).Perm (m :: l) := by
  induction l with
  | nil => exact List.Perm.refl _
  | cons x xs ih =>
    unfold insertByScoreDesc
    by_cases h : m.score ≤ x.score
    · rw [if_pos h]
      exact (ih.cons x).trans (List.Perm.swap m x xs)
    · rw [if_neg h]

/-- The sort is a permutation of its input. -/
theorem sortByScoreDesc_perm (l : List SearchMatchResult) :
    (sortByScoreDesc l).Perm l := by
  have key : ∀ (l acc : List SearchMatchResult),
      (l.foldl (fun acc m => insertByScoreDesc m acc) acc).Perm (acc ++ l) := by
    intro l
    induction l with
    | nil => intro acc; simp
    | cons m l ih =>
      intro acc
      rw [List.foldl_cons]
      refine (ih (insertByScoreDesc m acc)).trans ?_
      refine ((insertByScoreDesc_perm m acc).append_right l).trans ?_
      simpa using List.perm_middle.symm
  simpa using key l []

/-- Insertion preserves non-increasing score order. -/
theorem insertByScoreDesc_sorted (m : SearchMatchResult)
    (l : List SearchMatchResult)
    (h : l.Pairwise (fun a b => b.score ≤ a.score)) :
    (insertByScoreDesc m l).Pairwise (fun a b => b.score ≤ a.score) := by
  induction l with
  | nil => simp [insertByScoreDesc]
  | cons x xs ih =>
    rcases List.pairwise_cons.mp h with ⟨hx, hxs⟩
    unfold insertByScoreDesc
    by_cases hle : m.score ≤ x.score
    · rw [if_pos hle]
      rw [List.pairwise_cons]
      constructor
      · intro b hb
        rcases List.mem_cons.mp ((insertByScoreDesc_perm m xs).mem_iff.mp hb) with
          hbm | hbx
        · rw [hbm]; exact hle
        · exact hx b hbx
      · exact ih hxs
    · rw [if_neg hle]
      rw [List.pairwise_cons]
      constructor
      · intro b hb
        rcases List.mem_cons.mp hb with hbx | hbxs
        · rw [hbx]; omega
        · have := hx b hbxs; omega
      · exact h

/-- The sort output is in non-increasing score order. -/
theorem sortByScoreDesc_sorted (l : List SearchMatchResult) :
    (sortByScoreDesc l).Pairwise (fun a b => b.score ≤ a.score) := by
  have key : ∀ (l acc : List SearchMatchResult),
      acc.Pairwise (fun a b => b.score ≤ a.score) →
      (l.foldl (fun acc m => insertByScoreDesc m acc) acc).Pairwise
        (fun a b => b.score ≤ a.score) := by
    intro l
    induction l with
    | nil => intro acc h; simpa using h
    | cons m l ih =>
      intro acc h
      rw [List.foldl_cons]
      exact ih _ (insertByScoreDesc_sorted m acc h)
  exact key l [] List.Pairwise.nil

/-! ### Reward scan lemmas -/

/-- The inner fold of findTasksByReward collects the matched rewards and the
summed score. -/
theorem rewardScan_eq (q : Str) (rewards : List TaskReward)
    (acc : List TaskReward × Nat) :
    rewards.foldl (fun (st : List TaskReward × Nat) reward =>
        if isRewardMatched reward q then
          (st.1 ++ [reward], st.2 + calculateMatchScore reward q)
        else st) acc
      = (acc.1 ++ rewards.filter (fun r => isRewardMatched r q),
         acc.2 + ((rewards.filter (fun r => isRewardMatched r q)).map
           (fun r => calculateMatchScore r q)).sum) := by
  induction rewards generalizing acc with
  | nil => simp
  | cons r rewards ih =>
    rw [List.foldl_cons]
    by_cases h : isRewardMatched r q = true
    · rw [if_pos h, ih]
      simp [List.filter_cons, h, List.append_assoc, Nat.add_assoc]
    · rw [if_neg h, ih]
      have h2 : isRewardMatched r q = false := by simpa using h
      simp [List.filter_cons, h2]

/-- The outer fold of findTasksByReward is the declarative filterMap. -/
theorem collectFold_eq (q : Str) (tasks : List TaskData)
    (acc : List SearchMatchResult) :
    tasks.foldl (fun acc task =>
        let scan := task.rewards.foldl
          (fun (st : List TaskReward × Nat) reward =>
            if isRewardMatched reward q then
              (st.1 ++ [reward], st.2 + calculateMatchScore reward q)
            else st)
          ([], 0)
        if scan.1.isEmpty then acc
        else acc ++ [{ taskId := task.taskId, matchedRewards := scan.1,
                       score := scan.2 }]) acc
      = acc ++ tasks.filterMap (fun task =>
          let mr := task.rewards.filter (fun r => isRewardMatched r q)
          if mr.isEmpty then none
          else some { taskId := task.taskId, matchedRewards := mr,
                      score := (mr.map (fun r => calculateMatchScore r q)).sum }) := by
  induction tasks generalizing acc with
  | nil => simp
  | cons task tasks ih =>
    rw [List.foldl_cons]
    rw [rewardScan_eq q task.rewards ([], 0)]
    by_cases hmr : (task.rewards.filter (fun r => isRewardMatched r q)).isEmpty = true
    · rw [List.filterMap_cons]
      simp only [List.nil_append, Nat.zero_add, hmr, if_pos, if_true]
      rw [ih]
    · rw [List.filterMap_cons]
      simp only [List.nil_append, Nat.zero_add, if_neg hmr]
      rw [ih]
      simp [List.append_assoc]

/-- For a non-empty normalized query the claim-side per-reward score is the
source score. -/
theorem specRewardScore_eq_calculate (r : TaskReward) (q : Str) (h : q ≠ []) :
    specRewardScore r q = calculateMatchScore r q := by
  obtain ⟨c, q2, rfl⟩ : ∃ c q2, q = c :: q2 := by
    cases q with
    | nil => exact absurd rfl h
    | cons c q2 => exact ⟨c, q2, rfl⟩
  unfold specRewardScore specExact specStarts calculateMatchScore strStartsWith
  cases hd : r.description with
  | none =>
    cases hv : r.value with
    | num n => simp [hd, hv, beq_iff_eq, List.isPrefixOf_iff_prefix, List.prefix_nil]
    | str s => simp [hd, hv]
  | some d =>
    cases hv : r.value with
    | num n => simp [hd, hv, beq_iff_eq, List.isPrefixOf_iff_prefix, List.prefix_nil]
    | str s => simp [hd, hv]

/-- For a non-empty normalized query the claim-side collection coincides
with the source-scored collection. -/
theorem specCollect_eq (q : Str) (h : q ≠ []) (tasks : List TaskData) :
    specCollect q tasks =
      tasks.filterMap (fun task =>
        let mr := task.rewards.filter (fun r => isRewardMatched r q)
        if mr.isEmpty then none
        else some { taskId := task.taskId, matchedRewards := mr,
                    score := (mr.map (fun r => calculateMatchScore r q)).sum }) := by
  unfold specCollect
  congr 1
  funext task
  dsimp only []
  by_cases hmr : (task.rewards.filter (fun r => isRewardMatched r q)).isEmpty = true
  · rw [if_pos hmr, if_pos hmr]
  · rw [if_neg hmr, if_neg hmr]
    have hmap : (task.rewards.filter (fun r => isRewardMatched r q)).map
          (fun r => specRewardScore r q) =
        (task.rewards.filter (fun r => isRewardMatched r q)).map
          (fun r => calculateMatchScore r q) :=
      List.map_congr_left (fun r _ => specRewardScore_eq_calculate r q h)
    rw [hmap]

/-- findTasksByReward on a non-empty normalized query: the sorted
declarative collection alongside its mapped ids. -/
theorem findTasksByReward_eq (tasks : List TaskData) (query : Str)
    (h : (normalizeString query).isEmpty = false) :
    findTasksByReward tasks query =
      { matchedIds := (sortByScoreDesc (tasks.filterMap (fun task =>
          let mr := task.rewards.filter
            (fun r => isRewardMatched r (normalizeString query))
          if mr.isEmpty then none
          else some { taskId := task.taskId, matchedRewards := mr,
                      score := (mr.map (fun r =>
                        calculateMatchScore r (normalizeString query))).sum }))).map
            (fun m => m.taskId),
        matchList := sortByScoreDesc (tasks.filterMap (fun task =>
          let mr := task.rewards.filter
            (fun r => isRewardMatched r (normalizeString query))
          if mr.isEmpty then none
          else some { taskId := task.taskId, matchedRewards := mr,
                      score := (mr.map (fun r =>
                        calculateMatchScore r (normalizeString query))).sum })) } := by
  simp only [findTasksByReward]
  rw [if_neg (by simp [h])]
  rw [collectFold_eq (normalizeString query) tasks []]
  simp only [List.nil_append]

/-! ### C4 -/

/-- C4: for a non-empty normalized query, the match list of
findTasksByReward is a permutation of the declarative collection of the
claim (one entry per task with a non-empty matched-reward list, scored 100
per exact, 50 per prefix, 10 per substring-only matched reward, summed), it
is sorted by non-increasing total score, and matchedIds lists the taskIds of
the match list in the same order. -/
theorem findTasksByReward_correct (tasks : List TaskData) (query : Str)
    (h : normalizeString query ≠ []) :
    ((findTasksByReward tasks query).matchList.Perm
      (specCollect (normalizeString query) tasks)) ∧
    (findTasksByReward tasks query).matchList.Pairwise
      (fun a b => b.score ≤ a.score) ∧
    (findTasksByReward tasks query).matchedIds =
      (findTasksByReward tasks query).matchList.map (fun m => m.taskId) := by
  have hne : (normalizeString query).isEmpty = false := by
    cases hq : normalizeString query with
    | nil => exact absurd hq h
    | cons c cs => rfl
  rw [findTasksByReward_eq tasks query hne]
  refine ⟨?_, ?_, rfl⟩
  · rw [specCollect_eq (normalizeString query) h tasks]
    exact sortByScoreDesc_perm _
  · exact sortByScoreDesc_sorted _

/-- C4 witness: the reward search for ak on the one-task collection is
sorted, has ids matching the match list, and is a permutation of the
declarative collection. -/
theorem findTasksByReward_correct_witness :
    ((findTasksByReward demoSearchTasks (strOf "ak")).matchList.Perm
      (specCollect (normalizeString (strOf "ak")) demoSearchTasks)) ∧
    (findTasksByReward demoSearchTasks (strOf "ak")).matchList.Pairwise
      (fun a b => b.score ≤ a.score) ∧
    (findTasksByReward demoSearchTasks (strOf "ak")).matchedIds =
      (findTasksByReward demoSearchTasks (strOf "ak")).matchList.map
        (fun m => m.taskId) :=
  findTasksByReward_correct demoSearchTasks (strOf "ak") (by decide)
